import Mathlib

/-!
# UMIclusterer — verification of the clustering and consensus core

Shallow embedding of the repository sources (`src/src/clusterer.py`,
`src/src/consensus.py`, `src/src/utils.py`, `src/src/main.py`) and proofs
settling the specification claims about them.

Python floats that arise in the distance engine are exact halves and whole
numbers (integer absolute differences divided by two, and the integer
sentinel 999), all of which IEEE doubles represent exactly; they are embedded
as rationals.  Fallible Python code (raised exceptions) is embedded with
`Except PyErr`.  In-place mutation of read objects is embedded as explicit
state passing.
-/

namespace UMIC

/-- Exception values raised by the embedded code. `emptyCluster` is the
repository's `EmptyClusterError`; `seqNotPadded` is the generic
`Exception("Sequence must be padded before quality.")`; `fuel` is a modelling
artifact for the bounded unfolding of the traceback `while` loop. -/
inductive PyErr where
  | emptyCluster
  | typeError
  | indexError
  | valueError
  | seqNotPadded
  | fuel
deriving DecidableEq

/-- An entry of a quality array after `qual_pad`: either an integer Q score
or the literal string `"p"` that the code inserts at deletion columns. -/
inductive QVal where
  | q (n : ℤ)
  | p
deriving DecidableEq

/-! ## Distance engine (`Clusterer._metric`, src/src/clusterer.py lines 125-151) -/

/-- The key tuple `(umi, chr, start, end)` built by `Clusterer._generate_matrix`
from `read.query_name.split("_")[-1]`, `reference_name`, `reference_start`,
`reference_end`. -/
structure ReadKey where
  umi : List Char
  ref : String
  rstart : ℤ
  rend : ℤ
deriving DecidableEq

/-- Number of mismatching positions of two equal-length character lists
(the numerator of `scipy.spatial.distance.hamming`). -/
def mismatches (u v : List Char) : ℕ :=
  (List.zip u v).countP (fun pr => decide (pr.1 ≠ pr.2))

/-- `scipy.spatial.distance.hamming(list(x[0]), list(y[0]))`: the fraction of
differing positions.  Faithful for equal-length inputs (scipy raises on
unequal lengths). -/
def hammingFrac (u v : List Char) : ℚ :=
  (mismatches u v : ℚ) / (u.length : ℚ)

/-- `Clusterer._metric` (src/src/clusterer.py lines 125-151), embedded over ℚ.
`umi_dist = hamming(...) * len(x[0])`; early `999` returns for a UMI distance
above the threshold or differing references; otherwise
`cdist = (abs(start difference) + abs(end difference)) / 2` with Python true
division, `coord_dist = cdist if cdist <= window else 999`, and the function
returns `umi_dist + coord_dist`. -/
def codeMetric (x y : ReadKey) (threshold window : ℤ) : ℚ :=
  let umiDist : ℚ := hammingFrac x.umi y.umi * (x.umi.length : ℚ)
  if umiDist > (threshold : ℚ) then 999
  else if x.ref ≠ y.ref then 999
  else
    let cdist : ℚ := ((|x.rstart - y.rstart| + |x.rend - y.rend| : ℤ) : ℚ) / 2
    let coordDist : ℚ := if cdist ≤ (window : ℚ) then cdist else 999
    umiDist + coordDist

/-- The hybrid distance exactly as claim C1 words it: `999` when the UMI
Hamming distance exceeds `T`; `999` when the references differ; otherwise
`coord_d` is the integer division of the coordinate deviation sum by 2, the
result is `999` when `coord_d > W` and `umi_d + coord_d` otherwise. -/
def claimMetric (x y : ReadKey) (threshold window : ℤ) : ℚ :=
  let umiDist : ℕ := mismatches x.umi y.umi
  if (umiDist : ℤ) > threshold then 999
  else if x.ref ≠ y.ref then 999
  else
    let coordD : ℕ := ((x.rstart - y.rstart).natAbs + (x.rend - y.rend).natAbs) / 2
    if (coordD : ℤ) > window then 999
    else (umiDist : ℚ) + (coordD : ℚ)

/-- The hybrid distance as amended for claim C1: the coordinate deviation sum
is divided by 2 exactly (possibly yielding a half-integer), and when that
quotient exceeds the window the result is `umi_d + 999` rather than `999`. -/
def amendedMetric (x y : ReadKey) (threshold window : ℤ) : ℚ :=
  let umiDist : ℕ := mismatches x.umi y.umi
  if (umiDist : ℤ) > threshold then 999
  else if x.ref ≠ y.ref then 999
  else
    let coordD : ℚ := ((|x.rstart - y.rstart| + |x.rend - y.rend| : ℤ) : ℚ) / 2
    if coordD > (window : ℚ) then (umiDist : ℚ) + 999
    else (umiDist : ℚ) + coordD

/-- Claim C1, counterexample.  At UMI `AAAA` with starts 100 vs 101 the code
returns the exact half `1/2` where the claim's integer division gives `0`;
and at UMI distance 1 with far-apart coordinates the code returns
`1 + 999 = 1000` where the claim demands the sentinel `999`. -/
theorem C1_metric_deviates :
    codeMetric ⟨"AAAA".toList, "chr1", 100, 120⟩ ⟨"AAAA".toList, "chr1", 101, 120⟩ 1 5 ≠
      claimMetric ⟨"AAAA".toList, "chr1", 100, 120⟩ ⟨"AAAA".toList, "chr1", 101, 120⟩ 1 5 ∧
    codeMetric ⟨"AAAA".toList, "chr1", 100, 120⟩ ⟨"AAAT".toList, "chr1", 200, 220⟩ 1 5 ≠
      claimMetric ⟨"AAAA".toList, "chr1", 100, 120⟩ ⟨"AAAT".toList, "chr1", 200, 220⟩ 1 5 := by
  have hm0 : mismatches ['A', 'A', 'A', 'A'] ['A', 'A', 'A', 'A'] = 0 := by decide
  have hm1 : mismatches ['A', 'A', 'A', 'A'] ['A', 'A', 'A', 'T'] = 1 := by decide
  constructor
  · have h1 : codeMetric ⟨"AAAA".toList, "chr1", 100, 120⟩ ⟨"AAAA".toList, "chr1", 101, 120⟩ 1 5
        = 1 / 2 := by
      norm_num [codeMetric, hammingFrac, hm0]
    have h2 : claimMetric ⟨"AAAA".toList, "chr1", 100, 120⟩ ⟨"AAAA".toList, "chr1", 101, 120⟩ 1 5
        = 0 := by
      norm_num [claimMetric, hm0]
    rw [h1, h2]; norm_num
  · have h1 : codeMetric ⟨"AAAA".toList, "chr1", 100, 120⟩ ⟨"AAAT".toList, "chr1", 200, 220⟩ 1 5
        = 1000 := by
      norm_num [codeMetric, hammingFrac, hm1]
    have h2 : claimMetric ⟨"AAAA".toList, "chr1", 100, 120⟩ ⟨"AAAT".toList, "chr1", 200, 220⟩ 1 5
        = 999 := by
      norm_num [claimMetric, hm1]
    rw [h1, h2]; norm_num

/-- Claim C1 as amended: for two keys of the same partition with equal-length
non-empty UMIs, the code's hybrid distance follows the piecewise definition
with exact division of the coordinate deviation sum by 2 and with result
`umi_d + 999` (not `999`) when the halved coordinate deviation exceeds the
window. -/
theorem C1_metric_amended (x y : ReadKey) (threshold window : ℤ)
    (hlen : x.umi.length = y.umi.length) (hpos : 0 < x.umi.length) :
    codeMetric x y threshold window = amendedMetric x y threshold window := by
  have hne : (x.umi.length : ℚ) ≠ 0 := Nat.cast_ne_zero.mpr (Nat.pos_iff_ne_zero.mp hpos)
  have hq : hammingFrac x.umi y.umi * (x.umi.length : ℚ) = (mismatches x.umi y.umi : ℚ) := by
    rw [hammingFrac, div_mul_cancel₀ _ hne]
  simp only [codeMetric, amendedMetric, hq, gt_iff_lt]
  by_cases h1 : threshold < (mismatches x.umi y.umi : ℤ)
  · have h1' : (threshold : ℚ) < (mismatches x.umi y.umi : ℚ) := by exact_mod_cast h1
    simp [h1, h1']
  · have h1' : ¬ (threshold : ℚ) < (mismatches x.umi y.umi : ℚ) := by exact_mod_cast h1
    by_cases h2 : x.ref = y.ref
    · by_cases h3 :
          (|(x.rstart : ℚ) - (y.rstart : ℚ)| + |(x.rend : ℚ) - (y.rend : ℚ)|) / 2 ≤ (window : ℚ)
      · simp [h1, h1', h2, h3, not_lt.mpr h3]
      · simp [h1, h1', h2, h3, lt_of_not_le h3]
    · simp [h1, h1', h2]

/-- Witness for `C1_metric_amended` at a concrete pair of keys. -/
theorem C1_metric_amended_witness :
    (("AAAA".toList.length = "AAAT".toList.length) ∧ 0 < "AAAA".toList.length) ∧
    codeMetric ⟨"AAAA".toList, "chr1", 100, 120⟩ ⟨"AAAT".toList, "chr1", 107, 120⟩ 1 5 =
      amendedMetric ⟨"AAAA".toList, "chr1", 100, 120⟩ ⟨"AAAT".toList, "chr1", 107, 120⟩ 1 5 :=
  ⟨⟨by decide, by decide⟩,
    C1_metric_amended ⟨"AAAA".toList, "chr1", 100, 120⟩ ⟨"AAAT".toList, "chr1", 107, 120⟩ 1 5
      (by decide) (by decide)⟩

/-! ## Cluster engine (`Clusterer.cluster`, src/src/clusterer.py lines 57-99) -/

/-- The fields of a `pysam` aligned-read record that the repository reads.
`isAligned` models `isinstance(read, pysam.AlignedSegment)`; `query_sequence`
and `query_qualities` are `None`-able as in `pysam`. -/
structure PyRead where
  query_name : String
  reference_name : String
  reference_start : ℤ
  reference_end : ℤ
  isAligned : Bool
  query_sequence : Option (List Char)
  query_qualities : Option (List ℤ)
  cigartuples : List (ℕ × ℕ)
deriving DecidableEq

/-- `read.query_name.split("_")[-1]`: the characters after the last
underscore (the whole name when it has no underscore). -/
def lastTok (s : String) : List Char :=
  s.toList.foldl (fun acc c => if c = '_' then [] else acc ++ [c]) []

/-- The key tuple built per read by `Clusterer._generate_matrix`. -/
def readKey (r : PyRead) : ReadKey :=
  ⟨lastTok r.query_name, r.reference_name, r.reference_start, r.reference_end⟩

/-- `scipy.spatial.distance.pdist` with the custom metric: the condensed
upper-triangular distance vector, row-major with `i < j`. -/
def pdist (keys : List ReadKey) (threshold window : ℤ) : List ℚ :=
  match keys with
  | [] => []
  | x :: rest => rest.map (fun y => codeMetric x y threshold window) ++ pdist rest threshold window

/-- Index of the pair `(i, j)` with `i < j` in the condensed distance vector
of `n` observations. -/
def condIdx (n i j : ℕ) : ℕ :=
  i * n - i * (i + 1) / 2 + j - i - 1

/-- Entry lookup in the condensed distance vector. -/
def condGet (v : List ℚ) (n i j : ℕ) : ℚ :=
  if i = j then 0
  else if i < j then v.getD (condIdx n i j) 0
  else v.getD (condIdx n j i) 0

/-- Complete-linkage distance between two clusters of observation indices:
the maximum pairwise distance. -/
def clustDist (d : ℕ → ℕ → ℚ) (a b : List ℕ) : ℚ :=
  (a.map (fun i => (b.map (d i)).foldl max 0)).foldl max 0

/-- All unordered pairs of elements of a list, each pair in list order. -/
def allPairs {α : Type} : List α → List (α × α)
  | [] => []
  | x :: rest => rest.map (fun y => (x, y)) ++ allPairs rest

/-- One agglomerative step: merge the two clusters at minimal
complete-linkage distance if that distance is at most `t`. -/
def mergeOnce (d : ℕ → ℕ → ℚ) (t : ℚ) (cs : List (List ℕ)) : Option (List (List ℕ)) :=
  match allPairs cs with
  | [] => none
  | p0 :: rest =>
    let best := (p0 :: rest).foldl
      (fun acc pr => if clustDist d pr.1 pr.2 < clustDist d acc.1 acc.2 then pr else acc) p0
    if clustDist d best.1 best.2 ≤ t then
      some ((cs.filter (fun c => c != best.1 && c != best.2)) ++ [best.1 ++ best.2])
    else none

/-- Agglomerative merging, fuelled by the observation count. -/
def mergeLoop (d : ℕ → ℕ → ℚ) (t : ℚ) : ℕ → List (List ℕ) → List (List ℕ)
  | 0, cs => cs
  | fuel + 1, cs =>
    match mergeOnce d t cs with
    | some cs2 => mergeLoop d t fuel cs2
    | none => cs

/-- Stable insertion: `keep y x` means `y` stays ahead of `x`. -/
def insertBy {α : Type} (keep : α → α → Bool) (x : α) : List α → List α
  | [] => [x]
  | y :: ys => if keep y x then y :: insertBy keep x ys else x :: y :: ys

/-- Stable insertion sort driven by `keep`. -/
def sortBy {α : Type} (keep : α → α → Bool) : List α → List α
  | [] => []
  | x :: xs => insertBy keep x (sortBy keep xs)

/-- Modelled from the spec: the external clustering collaborator
(`scipy.cluster.hierarchy.linkage(method="complete")` followed by
`fcluster(t=threshold+window, criterion="distance")`) is not part of the
repository; §4.3 of the spec describes it as agglomerative clustering with
complete linkage that merges the pair of clusters with smallest maximum
pairwise distance, halts when every remaining pair is strictly above the
threshold, and emits clusters in the order of their smallest member index. -/
def flatClusters (d : ℕ → ℕ → ℚ) (t : ℚ) (n : ℕ) : List (List ℕ) :=
  let final := mergeLoop d t n ((List.range n).map (fun i => [i]))
  sortBy (fun a b => a.headD 0 < b.headD 0) (final.map (sortBy (fun i j => i < j)))

/-- The result of `Clusterer.cluster`: the dynamically typed Python function
returns either the *flat* input read list (the degenerate branches
`len(reads) == 1` and `not distance_matrix.any()`) or a *grouped* list of
clusters. -/
inductive ClusterResult where
  | flat : List PyRead → ClusterResult
  | grouped : List (List PyRead) → ClusterResult
deriving DecidableEq

/-- `Clusterer.cluster` (src/src/clusterer.py lines 57-99).  Empty input
returns the empty list; a single read is returned *flat*; when the condensed
distance vector has no non-zero entry (`not distance_matrix.any()`) the
*flat* read list is returned with clustering skipped; otherwise the linkage
collaborator produces index clusters that are mapped back to reads. -/
def cluster (reads : List PyRead) (threshold window : ℤ) : ClusterResult :=
  if reads = [] then .grouped []
  else if reads.length = 1 then .flat reads
  else
    let dm := pdist (reads.map readKey) threshold window
    if dm.any (fun q => q != 0) then
      let labels := flatClusters (condGet dm reads.length) ((threshold : ℚ) + (window : ℚ))
        reads.length
      .grouped (labels.map (fun c => c.filterMap (fun i => reads.get? i)))
    else .flat reads

/-- Helper: with at least two reads and an all-zero distance vector,
`cluster` returns the flat, ungrouped read list. -/
theorem cluster_of_zero_matrix (reads : List PyRead) (threshold window : ℤ)
    (h2 : 2 ≤ reads.length)
    (hz : (pdist (reads.map readKey) threshold window).any (fun q => q != 0) = false) :
    cluster reads threshold window = .flat reads := by
  have hne : ¬ reads = [] := by
    intro h; rw [h] at h2; exact absurd h2 (by decide)
  have hlen : ¬ reads.length = 1 := by omega
  rw [cluster, if_neg hne, if_neg hlen]
  simp only [hz]
  rfl

/-- The two reads of spec scenario 2: identical UMIs, reference and
coordinates, `T = 1`, `W = 5`. -/
def specRead1 : PyRead :=
  ⟨"R1_AAAA", "chr1", 100, 120, true, some "ACGT".toList, some [30, 30, 30, 30], [(0, 4)]⟩

/-- Second read of spec scenario 2. -/
def specRead2 : PyRead :=
  ⟨"R2_AAAA", "chr1", 100, 120, true, some "ACGT".toList, some [28, 28, 28, 28], [(0, 4)]⟩

/-- Claim C2, failing input.  For two reads with identical UMIs, reference
and coordinates, every pairwise distance is zero, so `not
distance_matrix.any()` holds and `Clusterer.cluster` skips clustering and
returns the *flat* two-read list instead of one two-read cluster: no cluster
containing both reads is ever formed, and downstream `main` iterates over
bare reads instead of clusters. -/
theorem C2_identical_reads_unclustered :
    cluster [specRead1, specRead2] 1 5 = ClusterResult.flat [specRead1, specRead2] ∧
    cluster [specRead1, specRead2] 1 5 ≠ ClusterResult.grouped [[specRead1, specRead2]] := by
  have h1 : readKey specRead1 = ⟨"AAAA".toList, "chr1", 100, 120⟩ := by decide
  have h2 : readKey specRead2 = ⟨"AAAA".toList, "chr1", 100, 120⟩ := by decide
  have hm : codeMetric (⟨"AAAA".toList, "chr1", 100, 120⟩ : ReadKey)
      ⟨"AAAA".toList, "chr1", 100, 120⟩ 1 5 = 0 := by
    have hm0 : mismatches ['A', 'A', 'A', 'A'] ['A', 'A', 'A', 'A'] = 0 := by decide
    norm_num [codeMetric, hammingFrac, hm0]
  have hc : cluster [specRead1, specRead2] 1 5 = ClusterResult.flat [specRead1, specRead2] := by
    apply cluster_of_zero_matrix _ _ _ (by decide)
    simp only [List.map_cons, List.map_nil, pdist, List.append_nil, List.nil_append, h1, h2,
      List.any_cons, List.any_nil, hm]
    decide
  exact ⟨hc, by rw [hc]; exact fun h => ClusterResult.noConfusion h⟩

/-- First of three reads at zero pairwise hybrid distance. -/
def nearRead1 : PyRead :=
  ⟨"S1_TTTT", "chr2", 50, 70, true, some "AAAA".toList, some [20, 20, 20, 20], [(0, 4)]⟩

/-- Second of three reads at zero pairwise hybrid distance. -/
def nearRead2 : PyRead :=
  ⟨"S2_TTTT", "chr2", 50, 70, true, some "AAAA".toList, some [21, 21, 21, 21], [(0, 4)]⟩

/-- Third of three reads at zero pairwise hybrid distance. -/
def nearRead3 : PyRead :=
  ⟨"S3_TTTT", "chr2", 50, 70, true, some "AAAA".toList, some [22, 22, 22, 22], [(0, 4)]⟩

/-- Claim C5, failing input.  Three reads whose pairwise hybrid distances are
all `0 ≤ T + W = 6` are returned *flat* (clustering skipped by the
`not distance_matrix.any()` guard), so the caller receives three separate
single-read items whose pairwise complete-linkage distance is `0`, although
merging was supposed to halt only when every remaining pair is strictly
above `T + W`. -/
theorem C5_halting_condition_violated :
    cluster [nearRead1, nearRead2, nearRead3] 1 5 =
      ClusterResult.flat [nearRead1, nearRead2, nearRead3] ∧
    codeMetric (readKey nearRead1) (readKey nearRead2) 1 5 = 0 ∧
    codeMetric (readKey nearRead1) (readKey nearRead3) 1 5 = 0 ∧
    codeMetric (readKey nearRead2) (readKey nearRead3) 1 5 = 0 ∧
    (0 : ℚ) ≤ 1 + 5 := by
  have h1 : readKey nearRead1 = ⟨"TTTT".toList, "chr2", 50, 70⟩ := by decide
  have h2 : readKey nearRead2 = ⟨"TTTT".toList, "chr2", 50, 70⟩ := by decide
  have h3 : readKey nearRead3 = ⟨"TTTT".toList, "chr2", 50, 70⟩ := by decide
  have hm : codeMetric (⟨"TTTT".toList, "chr2", 50, 70⟩ : ReadKey)
      ⟨"TTTT".toList, "chr2", 50, 70⟩ 1 5 = 0 := by
    have hm0 : mismatches ['T', 'T', 'T', 'T'] ['T', 'T', 'T', 'T'] = 0 := by decide
    norm_num [codeMetric, hammingFrac, hm0]
  refine ⟨?_, ?_, ?_, ?_, by norm_num⟩
  · apply cluster_of_zero_matrix _ _ _ (by decide)
    simp only [List.map_cons, List.map_nil, pdist, List.append_nil, List.nil_append, h1, h2, h3,
      List.any_cons, List.any_nil, List.any_append, hm]
    decide
  · rw [h1, h2]; exact hm
  · rw [h1, h3]; exact hm
  · rw [h2, h3]; exact hm

/-! ## CustomAlignedSegment (src/src/utils.py lines 56-120) -/

/-- The state of a `CustomAlignedSegment`: sequence, integer-or-`"p"` quality
array, read id, CIGAR, and the two private padding flags. -/
structure Seg where
  seq : List Char
  int_qual : List QVal
  id : String
  cigar : List (ℕ × ℕ)
  seqPadded : Bool
  qualPadded : Bool
deriving DecidableEq

/-- `CustomAlignedSegment.__init__` (src/src/utils.py lines 57-68): raises
`EmptyClusterError` unless the record is a pysam `AlignedSegment`;
`list(read.query_qualities)` raises `TypeError` when the qualities are
`None`.  A pysam record without a query sequence also carries no qualities,
so the sequence-`None` case surfaces through the same `TypeError`. -/
def initSeg (r : PyRead) : Except PyErr Seg :=
  if ¬ r.isAligned then .error .emptyCluster
  else
    match r.query_qualities with
    | none => .error .typeError
    | some qs =>
      match r.query_sequence with
      | none => .error .typeError
      | some sq => .ok ⟨sq, qs.map QVal.q, r.query_name, r.cigartuples, false, false⟩

/-- Python slice `l[pos : pos + len]` (clamped, never raising). -/
def pySlice {α : Type} (l : List α) (pos len : ℕ) : List α :=
  (l.drop pos).take len

/-- The CIGAR walk of `seq_pad` (src/src/utils.py lines 77-97): matches are
copied, insertions lower-cased, deletions emitted as `p`, and skipped/soft/
hard-clipped operations emit nothing and do not advance the position. -/
def expandCigar (sq : List Char) : List (ℕ × ℕ) → ℕ → List Char
  | [], _ => []
  | (op, len) :: rest, pos =>
    if op = 0 then pySlice sq pos len ++ expandCigar sq rest (pos + len)
    else if op = 1 then (pySlice sq pos len).map Char.toLower ++ expandCigar sq rest (pos + len)
    else if op = 2 then List.replicate len 'p' ++ expandCigar sq rest pos
    else expandCigar sq rest pos

/-- `CustomAlignedSegment.seq_pad` (src/src/utils.py lines 70-97), guarded by
the private `__seq_padded` flag. -/
def seqPad (s : Seg) : Seg :=
  if s.seqPadded then s
  else { s with seqPadded := true, seq := expandCigar s.seq s.cigar 0 }

/-- The quality-padding loop of `qual_pad` (src/src/utils.py lines 111-120):
walk the padded sequence; at `p` positions append the sentinel `"p"`,
elsewhere consume `self.int_qual[pos]` (raising `IndexError` past the end). -/
def padQual (qual : List QVal) : List Char → ℕ → Except PyErr (List QVal)
  | [], _ => .ok []
  | c :: rest, pos =>
    if c = 'p' then
      match padQual qual rest pos with
      | .ok l => .ok (QVal.p :: l)
      | .error e => .error e
    else
      match qual[pos]? with
      | none => .error .indexError
      | some v =>
        match padQual qual rest (pos + 1) with
        | .ok l => .ok (v :: l)
        | .error e => .error e

/-- `CustomAlignedSegment.qual_pad` (src/src/utils.py lines 99-120) as a
state transformer paired with the raised exception, if any.  The source sets
`__qual_padded = True` *before* the loop, so the flag is set even when the
loop raises, while `self.int_qual` is only replaced on success. -/
def qualPadS (s : Seg) : Seg × Option PyErr :=
  if ¬ s.seqPadded then (s, some .seqNotPadded)
  else if s.qualPadded then (s, none)
  else
    match padQual s.int_qual s.seq 0 with
    | .ok q => ({ s with qualPadded := true, int_qual := q }, none)
    | .error e => ({ s with qualPadded := true }, some e)

/-- `qual_pad` as used by the consensus pipeline, where a raised exception
propagates. -/
def qualPadE (s : Seg) : Except PyErr Seg :=
  match qualPadS s with
  | (s2, none) => .ok s2
  | (_, some e) => .error e

/-- Claim C10.  Padding is idempotent: a second `seq_pad` returns the state
unchanged, a second `qual_pad` returns the state unchanged, and `qual_pad`
on a not-yet-seq-padded read raises and leaves the read (in particular its
quality array) unchanged. -/
theorem C10_padding_idempotent (s : Seg) :
    seqPad (seqPad s) = seqPad s ∧
    (qualPadS (qualPadS s).1).1 = (qualPadS s).1 ∧
    (s.seqPadded = false → qualPadS s = (s, some PyErr.seqNotPadded)) := by
  refine ⟨?_, ?_, ?_⟩
  · by_cases h : s.seqPadded
    · have h1 : seqPad s = s := by rw [seqPad, if_pos h]
      rw [h1]; exact h1
    · have h1 : seqPad s = { s with seqPadded := true, seq := expandCigar s.seq s.cigar 0 } := by
        rw [seqPad, if_neg h]
      rw [h1, seqPad]
      simp
  · by_cases h : s.seqPadded
    · by_cases h2 : s.qualPadded
      · have h1 : qualPadS s = (s, none) := by
          rw [qualPadS, if_neg (by simp [h]), if_pos h2]
        rw [h1]
        exact congrArg Prod.fst h1
      · cases hp : padQual s.int_qual s.seq 0 with
        | ok q =>
          have h1 : qualPadS s = ({ s with qualPadded := true, int_qual := q }, none) := by
            rw [qualPadS, if_neg (by simp [h]), if_neg h2, hp]
          rw [h1, qualPadS]
          simp [h]
        | error e =>
          have h1 : qualPadS s = ({ s with qualPadded := true }, some e) := by
            rw [qualPadS, if_neg (by simp [h]), if_neg h2, hp]
          rw [h1, qualPadS]
          simp [h]
    · have h1 : qualPadS s = (s, some .seqNotPadded) := by
        rw [qualPadS, if_pos (by simp [h])]
      rw [h1]
      exact congrArg Prod.fst h1
  · intro h
    rw [qualPadS, if_pos (by simp [h])]

/-- Witness for `C10_padding_idempotent` at a concrete unpadded read. -/
theorem C10_padding_idempotent_witness :
    (seqPad (seqPad ⟨"ACGT".toList, [QVal.q 30], "w10", [(0, 4)], false, false⟩) =
      seqPad ⟨"ACGT".toList, [QVal.q 30], "w10", [(0, 4)], false, false⟩) ∧
    ((qualPadS (qualPadS ⟨"ACGT".toList, [QVal.q 30], "w10", [(0, 4)], false, false⟩).1).1 =
      (qualPadS ⟨"ACGT".toList, [QVal.q 30], "w10", [(0, 4)], false, false⟩).1) ∧
    qualPadS ⟨"ACGT".toList, [QVal.q 30], "w10", [(0, 4)], false, false⟩ =
      (⟨"ACGT".toList, [QVal.q 30], "w10", [(0, 4)], false, false⟩, some PyErr.seqNotPadded) := by
  have h := C10_padding_idempotent ⟨"ACGT".toList, [QVal.q 30], "w10", [(0, 4)], false, false⟩
  exact ⟨h.1, h.2.1, h.2.2 rfl⟩

/-- Specification of a successful `padQual` run: the output is as long as
the padded sequence, carries the sentinel exactly at `p` positions, and
consumes the original quality values in order elsewhere. -/
theorem padQual_ok_spec (qual : List QVal) (hq : ∀ v ∈ qual, v ≠ QVal.p) (seq : List Char) :
    ∀ (pos : ℕ) (out : List QVal), padQual qual seq pos = .ok out →
      out.length = seq.length ∧
      (∀ i, out.getD i QVal.p = QVal.p ↔ seq.getD i 'p' = 'p') ∧
      out.filter (fun v => v != QVal.p) =
        (qual.drop pos).take ((seq.filter (fun c => c != 'p')).length) := by
  induction seq with
  | nil =>
    intro pos out h
    simp only [padQual] at h
    injection h with h2
    subst h2
    refine ⟨rfl, fun i => by simp, by simp⟩
  | cons c rest ih =>
    intro pos out h
    simp only [padQual] at h
    by_cases hc : c = 'p'
    · rw [if_pos hc] at h
      cases hrec : padQual qual rest pos with
      | error e => rw [hrec] at h; exact absurd h (by simp)
      | ok l =>
        rw [hrec] at h
        injection h with h2
        subst h2
        obtain ⟨h1, h2, h3⟩ := ih pos l hrec
        refine ⟨by simp [h1], ?_, ?_⟩
        · intro i
          cases i with
          | zero => simp [hc]
          | succ n => simpa using h2 n
        · simp only [List.filter_cons, hc]
          simpa using h3
    · rw [if_neg hc] at h
      cases hv : qual[pos]? with
      | none => rw [hv] at h; exact absurd h (by simp)
      | some v =>
        rw [hv] at h
        cases hrec : padQual qual rest (pos + 1) with
        | error e => rw [hrec] at h; exact absurd h (by simp)
        | ok l =>
          rw [hrec] at h
          injection h with h2
          subst h2
          obtain ⟨h1, h2, h3⟩ := ih (pos + 1) l hrec
          have hvne : v ≠ QVal.p := hq v (List.getElem?_mem hv)
          have hlt : pos < qual.length := (List.getElem?_eq_some_iff.mp hv).1
          have hd : qual.drop pos = v :: qual.drop (pos + 1) := by
            rw [List.drop_eq_getElem_cons hlt, (List.getElem?_eq_some_iff.mp hv).2]
          refine ⟨by simp [h1], ?_, ?_⟩
          · intro i
            cases i with
            | zero => simp [hc, hvne]
            | succ n => simpa using h2 n
          · simp only [List.filter_cons, hc, hvne, hd]
            simp only [bne_iff_ne, ne_eq, hvne, not_false_eq_true, ite_true, hc, ite_false,
              decide_not]
            simp [h3, List.take_succ_cons, hc]

/-- Claim C7.  After a successful `qual_pad` on a read whose quality array
holds only integers, the quality array is as long as the (unchanged) padded
sequence, has the sentinel `"p"` exactly at the `p` positions of the
sequence, and lists the original quality values in order at all other
positions.  (`getD` defaults are chosen so the positional biconditional is
vacuous beyond the common length.) -/
theorem C7_qual_pad_parallel (s s2 : Seg)
    (hq : ∀ v ∈ s.int_qual, v ≠ QVal.p) (hnot : s.qualPadded = false)
    (hrun : qualPadS s = (s2, none)) :
    s2.seq = s.seq ∧
    s2.int_qual.length = s2.seq.length ∧
    (∀ i, s2.int_qual.getD i QVal.p = QVal.p ↔ s2.seq.getD i 'p' = 'p') ∧
    s2.int_qual.filter (fun v => v != QVal.p) =
      s.int_qual.take ((s2.seq.filter (fun c => c != 'p')).length) := by
  by_cases hsp : s.seqPadded
  · rw [qualPadS, if_neg (by simp [hsp]), if_neg (by simp [hnot])] at hrun
    cases hp : padQual s.int_qual s.seq 0 with
    | error e => rw [hp] at hrun; exact absurd hrun (by simp)
    | ok q =>
      rw [hp] at hrun
      injection hrun with hA hB
      subst hA
      obtain ⟨h1, h2, h3⟩ := padQual_ok_spec s.int_qual hq s.seq 0 q hp
      exact ⟨rfl, h1, h2, by simpa using h3⟩
  · rw [qualPadS, if_pos (by simp [hsp])] at hrun
    exact absurd hrun (by simp)

/-- Witness for `C7_qual_pad_parallel` on a concrete seq-padded read. -/
theorem C7_qual_pad_parallel_witness :
    ((∀ v ∈ [QVal.q 30, QVal.q 20], v ≠ QVal.p) ∧
      qualPadS ⟨['A', 'p', 'C'], [QVal.q 30, QVal.q 20], "w7", [], true, false⟩ =
        (⟨['A', 'p', 'C'], [QVal.q 30, QVal.p, QVal.q 20], "w7", [], true, true⟩, none)) ∧
    ((⟨['A', 'p', 'C'], [QVal.q 30, QVal.p, QVal.q 20], "w7", [], true, true⟩ : Seg).seq =
        (⟨['A', 'p', 'C'], [QVal.q 30, QVal.q 20], "w7", [], true, false⟩ : Seg).seq ∧
      (⟨['A', 'p', 'C'], [QVal.q 30, QVal.p, QVal.q 20], "w7", [], true,
        true⟩ : Seg).int_qual.length =
        (⟨['A', 'p', 'C'], [QVal.q 30, QVal.p, QVal.q 20], "w7", [], true,
          true⟩ : Seg).seq.length ∧
      (∀ i, (⟨['A', 'p', 'C'], [QVal.q 30, QVal.p, QVal.q 20], "w7", [], true,
          true⟩ : Seg).int_qual.getD i QVal.p = QVal.p ↔
        (⟨['A', 'p', 'C'], [QVal.q 30, QVal.p, QVal.q 20], "w7", [], true,
          true⟩ : Seg).seq.getD i 'p' = 'p') ∧
      (⟨['A', 'p', 'C'], [QVal.q 30, QVal.p, QVal.q 20], "w7", [], true,
        true⟩ : Seg).int_qual.filter (fun v => v != QVal.p) =
        (⟨['A', 'p', 'C'], [QVal.q 30, QVal.q 20], "w7", [], true, false⟩ : Seg).int_qual.take
          ((⟨['A', 'p', 'C'], [QVal.q 30, QVal.p, QVal.q 20], "w7", [], true,
            true⟩ : Seg).seq.filter (fun c => c != 'p')).length) :=
  ⟨⟨by decide, by decide⟩,
    C7_qual_pad_parallel ⟨['A', 'p', 'C'], [QVal.q 30, QVal.q 20], "w7", [], true, false⟩
      ⟨['A', 'p', 'C'], [QVal.q 30, QVal.p, QVal.q 20], "w7", [], true, true⟩
      (by decide) rfl (by decide)⟩

/-! ## Needleman-Wunsch aligner (`Consensus._align_strings`,
src/src/consensus.py lines 100-168) -/

/-- `gap_penalty = -1` of `_align_strings`. -/
def gapPenalty : ℤ := -1

/-- The 256×256 substitution matrix built in `_align_strings`: 1 on the
diagonal and on the row and column of `ord("p") = 112`, 0 elsewhere.  The
source `numpy` array is defined for codepoints below 256 only (indexing
beyond raises), so theorems consulting it carry that bound. -/
def substMatrix (i j : ℕ) : ℤ :=
  if i = j ∨ i = 112 ∨ j = 112 then 1 else 0

/-- The per-cell match score of `_align_strings`: an explicit shortcut
returns 1 when either character is `p`; otherwise the substitution matrix is
consulted at the characters' codepoints. -/
def matchCode (a b : Char) : ℤ :=
  if a = 'p' ∨ b = 'p' then 1 else substMatrix a.toNat b.toNat

/-- The substitution score in the words of claim C3: +1 exactly when the two
characters are equal or either is the wildcard `p`, 0 otherwise. -/
def specMatch (a b : Char) : ℤ :=
  if a = b ∨ a = 'p' ∨ b = 'p' then 1 else 0

/-- One scoring/traceback cell from the diagonal, upper and left
neighbour scores: score `max(diag, up, left)`, direction 1 on a diagonal
tie, else 2 on an up tie, else 3. -/
def nwCellStep (left : ℤ) (dum : ℤ × ℤ × ℤ) : ℤ × ℕ :=
  let diag := dum.1 + dum.2.2
  let up := dum.2.1 + gapPenalty
  let lf := left + gapPenalty
  let s := max (max diag up) lf
  (s, if s = diag then 1 else if s = up then 2 else 3)

/-- Fill one matrix row left to right; `left` is the score of the cell just
computed in this row. -/
def nwCells (left : ℤ) : List (ℤ × ℤ × ℤ) → List (ℤ × ℕ)
  | [] => []
  | dum :: rest =>
    let cell := nwCellStep left dum
    cell :: nwCells cell.1 rest

/-- `(prev[c-1], prev[c], match(a, anchor[c-1]))` for each column `c ≥ 1` of
a row, taken from the previous row's scores `prev`. -/
def rowInput (a : Char) : List Char → List ℤ → List (ℤ × ℤ × ℤ)
  | ch :: anch, pd :: pu :: rest => (pd, pu, matchCode a ch) :: rowInput a anch (pu :: rest)
  | _, _ => []

/-- Row `r` of the scoring-and-traceback matrix for read `rd` (rows) against
`anchor` (columns): row 0 is the `np.zeros` border, and row `r + 1` is
filled from row `r` using read character `rd[r]`; column 0 of every row
retains the zero border. -/
def nwRowN (rd anchor : List Char) : ℕ → List (ℤ × ℕ)
  | 0 => List.replicate (anchor.length + 1) (0, 0)
  | r + 1 =>
    (0, 0) :: nwCells 0 (rowInput (rd.getD r ' ') anchor ((nwRowN rd anchor r).map Prod.fst))

/-- `score_matrix[r, c]`. -/
def nwS (rd anchor : List Char) (r c : ℕ) : ℤ :=
  ((nwRowN rd anchor r).getD c (0, 0)).1

/-- `traceback_matrix[r, c]`. -/
def nwT (rd anchor : List Char) (r c : ℕ) : ℕ :=
  ((nwRowN rd anchor r).getD c (0, 0)).2

/-- The code's match score agrees with the claim's piecewise substitution
score: codepoint equality reflects character equality. -/
theorem matchCode_eq_specMatch (a b : Char) : matchCode a b = specMatch a b := by
  have inj : ∀ {x y : Char}, x.toNat = y.toNat → x = y := fun h =>
    Char.eq_of_val_eq (UInt32.toNat.inj h)
  by_cases hp : a = 'p' ∨ b = 'p'
  · rw [matchCode, if_pos hp, specMatch, if_pos (Or.inr hp)]
  · rw [matchCode, if_neg hp, specMatch, substMatrix]
    push_neg at hp
    obtain ⟨ha, hb⟩ := hp
    have e2 : ¬ a.toNat = 112 := fun h =>
      ha (inj (h.trans (show (112 : ℕ) = Char.toNat 'p' by decide)))
    have e3 : ¬ b.toNat = 112 := fun h =>
      hb (inj (h.trans (show (112 : ℕ) = Char.toNat 'p' by decide)))
    by_cases hab : a = b
    · subst hab; simp
    · have e1 : ¬ a.toNat = b.toNat := fun h => hab (inj h)
      simp [e1, e2, e3, hab, ha, hb]

theorem nwCells_length (l : List (ℤ × ℤ × ℤ)) : ∀ x, (nwCells x l).length = l.length := by
  induction l with
  | nil => intro x; rfl
  | cons d rest ih => intro x; simp [nwCells, ih]

theorem rowInput_length (a : Char) : ∀ (anch : List Char) (prev : List ℤ),
    prev.length = anch.length + 1 → (rowInput a anch prev).length = anch.length := by
  intro anch
  induction anch with
  | nil => intro prev _; cases prev with
    | nil => rfl
    | cons pd prev2 => cases prev2 <;> rfl
  | cons ch anch ih =>
    intro prev hl
    cases prev with
    | nil => simp at hl
    | cons pd prev2 =>
      cases prev2 with
      | nil =>
        simp only [List.length_cons, List.length_nil] at hl
        omega
      | cons pu rest =>
        simp only [rowInput, List.length_cons]
        rw [ih (pu :: rest) (by simpa using hl)]

theorem nwRowN_length (rd anchor : List Char) : ∀ r, (nwRowN rd anchor r).length = anchor.length + 1 := by
  intro r
  induction r with
  | zero => simp [nwRowN]
  | succ n ih =>
    have h1 : ((nwRowN rd anchor n).map Prod.fst).length = anchor.length + 1 := by
      rw [List.length_map, ih]
    simp only [nwRowN, List.length_cons, nwCells_length, rowInput_length _ _ _ h1]

theorem mapFst_getD (l : List (ℤ × ℕ)) : ∀ n, (l.map Prod.fst).getD n 0 = (l.getD n (0, 0)).1 := by
  induction l with
  | nil => intro n; rfl
  | cons x rest ih =>
    intro n
    cases n with
    | zero => rfl
    | succ m => simpa using ih m

theorem nwCells_getD (l : List (ℤ × ℤ × ℤ)) : ∀ (x : ℤ) (c : ℕ), c < l.length →
    (nwCells x l).getD c (0, 0) =
      nwCellStep (if c = 0 then x else ((nwCells x l).getD (c - 1) (0, 0)).1)
        (l.getD c (0, 0, 0)) := by
  induction l with
  | nil => intro x c h; exact absurd h (by simp)
  | cons d rest ih =>
    intro x c h
    cases c with
    | zero => rfl
    | succ m =>
      have hm : m < rest.length := by simpa using h
      have hout : nwCells x (d :: rest) = nwCellStep x d :: nwCells (nwCellStep x d).1 rest := rfl
      rw [hout, List.getD_cons_succ, ih (nwCellStep x d).1 m hm, List.getD_cons_succ]
      congr 1
      cases m with
      | zero => simp
      | succ k => simp [List.getD_cons_succ]

theorem rowInput_getD (a : Char) : ∀ (anch : List Char) (prev : List ℤ) (c : ℕ),
    prev.length = anch.length + 1 → c < anch.length →
    (rowInput a anch prev).getD c (0, 0, 0) =
      (prev.getD c 0, prev.getD (c + 1) 0, matchCode a (anch.getD c ' ')) := by
  intro anch
  induction anch with
  | nil => intro prev c _ h; exact absurd h (by simp)
  | cons ch anch ih =>
    intro prev c hl hc
    cases prev with
    | nil => simp at hl
    | cons pd prev2 =>
      cases prev2 with
      | nil =>
        simp only [List.length_cons, List.length_nil] at hl
        omega
      | cons pu rest =>
        cases c with
        | zero => rfl
        | succ m =>
          have hrec := ih (pu :: rest) m (by simpa using hl) (by simpa using hc)
          simp only [rowInput, List.getD_cons_succ]
          exact hrec

/-- Claim C3.  For every interior cell of the scoring matrix the gap penalty
is −1 on both axes, the substitution score is the claim's piecewise score,
the score satisfies `S[r,c] = max(S[r-1,c-1] + match, S[r-1,c] + gap,
S[r,c-1] + gap)`, and the traceback direction prefers diagonal over up over
left on equal scores.  The codepoint bounds reflect the domain of the 256×256
substitution array. -/
theorem C3_nw_recurrence (rd anchor : List Char) (r c : ℕ)
    (hr1 : 1 ≤ r) (hrR : r ≤ rd.length) (hc1 : 1 ≤ c) (hcC : c ≤ anchor.length)
    (hrdB : ∀ ch ∈ rd, ch.toNat < 256) (hanB : ∀ ch ∈ anchor, ch.toNat < 256) :
    gapPenalty = -1 ∧
    matchCode (rd.getD (r - 1) ' ') (anchor.getD (c - 1) ' ') =
      specMatch (rd.getD (r - 1) ' ') (anchor.getD (c - 1) ' ') ∧
    nwS rd anchor r c =
      max (max (nwS rd anchor (r - 1) (c - 1) +
            specMatch (rd.getD (r - 1) ' ') (anchor.getD (c - 1) ' '))
          (nwS rd anchor (r - 1) c + gapPenalty))
        (nwS rd anchor r (c - 1) + gapPenalty) ∧
    nwT rd anchor r c =
      (if nwS rd anchor r c = nwS rd anchor (r - 1) (c - 1) +
          specMatch (rd.getD (r - 1) ' ') (anchor.getD (c - 1) ' ') then 1
       else if nwS rd anchor r c = nwS rd anchor (r - 1) c + gapPenalty then 2 else 3) := by
  obtain ⟨r0, rfl⟩ : ∃ r0, r = r0 + 1 := ⟨r - 1, by omega⟩
  obtain ⟨c0, rfl⟩ : ∃ c0, c = c0 + 1 := ⟨c - 1, by omega⟩
  simp only [Nat.add_sub_cancel]
  have hpl : ((nwRowN rd anchor r0).map Prod.fst).length = anchor.length + 1 := by
    rw [List.length_map, nwRowN_length]
  have hc0 : c0 < anchor.length := by omega
  have hrow : nwRowN rd anchor (r0 + 1) =
      (0, 0) :: nwCells 0 (rowInput (rd.getD r0 ' ') anchor ((nwRowN rd anchor r0).map Prod.fst)) :=
    rfl
  have hcell : (nwRowN rd anchor (r0 + 1)).getD (c0 + 1) (0, 0) =
      nwCellStep (nwS rd anchor (r0 + 1) c0)
        (nwS rd anchor r0 c0, nwS rd anchor r0 (c0 + 1),
          matchCode (rd.getD r0 ' ') (anchor.getD c0 ' ')) := by
    rw [hrow, List.getD_cons_succ,
      nwCells_getD _ 0 c0 (by rw [rowInput_length _ _ _ hpl]; exact hc0),
      rowInput_getD _ _ _ _ hpl hc0, mapFst_getD, mapFst_getD]
    have hleft : (if c0 = 0 then (0 : ℤ)
        else ((nwCells 0 (rowInput (rd.getD r0 ' ') anchor
          ((nwRowN rd anchor r0).map Prod.fst))).getD (c0 - 1) (0, 0)).1) =
        nwS rd anchor (r0 + 1) c0 := by
      cases c0 with
      | zero => rfl
      | succ k => simp [nwS, hrow, List.getD_cons_succ]
    rw [hleft]
    rfl
  have hS : nwS rd anchor (r0 + 1) (c0 + 1) =
      max (max (nwS rd anchor r0 c0 + matchCode (rd.getD r0 ' ') (anchor.getD c0 ' '))
          (nwS rd anchor r0 (c0 + 1) + gapPenalty))
        (nwS rd anchor (r0 + 1) c0 + gapPenalty) := by
    show ((nwRowN rd anchor (r0 + 1)).getD (c0 + 1) (0, 0)).1 = _
    rw [hcell]
    rfl
  have hT : nwT rd anchor (r0 + 1) (c0 + 1) =
      (if nwS rd anchor (r0 + 1) (c0 + 1) =
          nwS rd anchor r0 c0 + matchCode (rd.getD r0 ' ') (anchor.getD c0 ' ') then 1
       else if nwS rd anchor (r0 + 1) (c0 + 1) = nwS rd anchor r0 (c0 + 1) + gapPenalty then 2
       else 3) := by
    show ((nwRowN rd anchor (r0 + 1)).getD (c0 + 1) (0, 0)).2 = _
    rw [hcell, hS]
    rfl
  rw [matchCode_eq_specMatch] at hS hT
  exact ⟨rfl, matchCode_eq_specMatch _ _, hS, hT⟩

/-- Witness for `C3_nw_recurrence` at a concrete read, anchor and cell. -/
theorem C3_nw_recurrence_witness :
    ((1 ≤ 1 ∧ 1 ≤ "AC".toList.length ∧ 1 ≤ 2 ∧ 2 ≤ "GAC".toList.length) ∧
      (∀ ch ∈ "AC".toList, ch.toNat < 256) ∧ (∀ ch ∈ "GAC".toList, ch.toNat < 256)) ∧
    (gapPenalty = -1 ∧
      matchCode ("AC".toList.getD 0 ' ') ("GAC".toList.getD 1 ' ') =
        specMatch ("AC".toList.getD 0 ' ') ("GAC".toList.getD 1 ' ') ∧
      nwS "AC".toList "GAC".toList 1 2 =
        max (max (nwS "AC".toList "GAC".toList 0 1 +
              specMatch ("AC".toList.getD 0 ' ') ("GAC".toList.getD 1 ' '))
            (nwS "AC".toList "GAC".toList 0 2 + gapPenalty))
          (nwS "AC".toList "GAC".toList 1 1 + gapPenalty) ∧
      nwT "AC".toList "GAC".toList 1 2 =
        (if nwS "AC".toList "GAC".toList 1 2 = nwS "AC".toList "GAC".toList 0 1 +
            specMatch ("AC".toList.getD 0 ' ') ("GAC".toList.getD 1 ' ') then 1
         else if nwS "AC".toList "GAC".toList 1 2 =
            nwS "AC".toList "GAC".toList 0 2 + gapPenalty then 2 else 3)) :=
  ⟨⟨⟨by decide, by decide, by decide, by decide⟩, by decide, by decide⟩,
    C3_nw_recurrence "AC".toList "GAC".toList 1 2 (by decide) (by decide) (by decide) (by decide)
      (by decide) (by decide)⟩

/-- Equality of embedded fallible results is decidable. -/
instance exceptDecEq {ε α : Type} [DecidableEq ε] [DecidableEq α] : DecidableEq (Except ε α) :=
  fun a b =>
    match a, b with
    | .ok x, .ok y =>
      if h : x = y then isTrue (by rw [h]) else isFalse (fun hh => by cases hh; exact h rfl)
    | .error x, .error y =>
      if h : x = y then isTrue (by rw [h]) else isFalse (fun hh => by cases hh; exact h rfl)
    | .ok _, .error _ => isFalse (fun hh => Except.noConfusion hh)
    | .error _, .ok _ => isFalse (fun hh => Except.noConfusion hh)

/-- Python list indexing `l[i]`: negative indices wrap once from the end,
and anything outside `[-len, len)` raises `IndexError`. -/
def pyIdx {α : Type} (l : List α) (i : ℤ) : Except PyErr α :=
  let j : ℤ := if 0 ≤ i then i else (l.length : ℤ) + i
  if 0 ≤ j then
    match l[j.toNat]? with
    | some a => .ok a
    | none => .error .indexError
  else .error .indexError

/-- The scoring-and-traceback matrix as a list of rows. -/
def nwMatrix (rd anchor : List Char) : List (List (ℤ × ℕ)) :=
  (List.range (rd.length + 1)).map (nwRowN rd anchor)

/-- The traceback `while r > 0 or c > 0` loop of `_align_strings`
(src/src/consensus.py lines 150-163) with Python indexing semantics,
returning the two aligned strings and the final `(r, c)`.  Directions: 1
consumes both characters, 2 consumes a read character against `p`, anything
else (including the zero border) consumes an anchor character against `p`.
The fuel only bounds the unfolding; every caller in this development
supplies more than the loop can take. -/
def traceAux (mat : List (List (ℤ × ℕ))) (rd anchor : List Char) :
    ℕ → ℤ → ℤ → List Char → List Char → Except PyErr (List Char × List Char × ℤ × ℤ)
  | 0, _, _, _, _ => .error .fuel
  | fuel + 1, r, c, ai, aj =>
    if 0 < r ∨ 0 < c then
      match pyIdx mat r with
      | .error e => .error e
      | .ok row =>
        match pyIdx row c with
        | .error e => .error e
        | .ok cell =>
          if cell.2 = 1 then
            match pyIdx rd (r - 1) with
            | .error e => .error e
            | .ok a =>
              match pyIdx anchor (c - 1) with
              | .error e => .error e
              | .ok b => traceAux mat rd anchor fuel (r - 1) (c - 1) (a :: ai) (b :: aj)
          else if cell.2 = 2 then
            match pyIdx rd (r - 1) with
            | .error e => .error e
            | .ok a => traceAux mat rd anchor fuel (r - 1) c (a :: ai) ('p' :: aj)
          else
            match pyIdx anchor (c - 1) with
            | .error e => .error e
            | .ok b => traceAux mat rd anchor fuel r (c - 1) ('p' :: ai) (b :: aj)
    else .ok (ai, aj, r, c)

/-- Traceback of one read against the anchor, started at the bottom-right
corner `(rows - 1, cols - 1)`. -/
def tracebackRun (rd anchor : List Char) : Except PyErr (List Char × List Char × ℤ × ℤ) :=
  traceAux (nwMatrix rd anchor) rd anchor
    (rd.length + 2 * anchor.length + 8) (rd.length : ℤ) (anchor.length : ℤ) [] []

/-- Claim C6, failing input.  Aligning read `TAAT` against the equally long
anchor `AATA`, the traceback reaches the left edge at `(1, 0)`, where the
zero border cell sends it through the *left* branch: it reads the anchor at
the negative index `-1` (wrapping to the last character), pushes `p` into
the read-side string, and leaves the matrix, terminating at `(0, -2)` rather
than `(0, 0)`. -/
theorem C6_traceback_escapes_matrix :
    tracebackRun "TAAT".toList "AATA".toList =
      .ok ("TpAATp".toList, "TAAATA".toList, 0, -2) ∧ (-2 : ℤ) ≠ 0 :=
  ⟨by decide, by decide⟩

/-! ## Column voting and the consensus pipeline (`Consensus`,
src/src/consensus.py lines 13-98; `main`, src/src/main.py lines 102-113) -/

/-- Number of tuples produced by Python `zip(*ls)`: the minimum row
length. -/
def colCount {α : Type} (ls : List (List α)) : ℕ :=
  match ls.map List.length with
  | [] => 0
  | x :: xs => xs.foldl min x

/-- Python `zip(*ls)`: the columns, truncated at the shortest row. -/
def columns {α : Type} (ls : List (List α)) (d : α) : List (List α) :=
  (List.range (colCount ls)).map (fun k => ls.map (fun l => l.getD k d))

/-- CPython iterates `set(bases)` in a hash-dependent order; the pipeline
embedding fixes it to first-occurrence order.  Claim C8 shows the winner on
score ties genuinely depends on this order. -/
def setList (l : List Char) : List Char :=
  l.foldl (fun acc c => if c ∈ acc then acc else acc ++ [c]) []

/-- A column position pairing a base other than `p` with the quality
sentinel `"p"` makes the accumulation `q_scores[base] += qualities[i]` add a
string to an integer, raising `TypeError`. -/
def colBad (col : List (Char × QVal)) : Bool :=
  col.any (fun e => e.1 != 'p' && e.2 == QVal.p)

/-- The integer under a `QVal` (sound only where `colBad` is false). -/
def qvalInt : QVal → ℤ
  | .q n => n
  | .p => 0

/-- `q_scores[b]`: sum of the qualities at non-`p` positions holding base
`b`; stays 0 for `b = 'p'`. -/
def qSum (col : List (Char × QVal)) (b : Char) : ℤ :=
  (col.filter (fun e => e.1 == b && e.1 != 'p')).foldl (fun a e => a + qvalInt e.2) 0

/-- `Consensus._assign_q_score` (src/src/consensus.py lines 170-182). -/
def bucket (v : ℚ) : ℤ :=
  if v ≥ 30 then 8 else if v ≥ 20 then 6 else if v ≥ 15 then 4 else 2

/-- Dictionary lookup in an association list. -/
def alookup (l : List (Char × ℚ)) (b : Char) : ℚ :=
  ((l.find? (fun e => e.1 == b)).map Prod.snd).getD 0

/-- `qual_per_base` before the deletion entry: mean quality of each non-`p`
symbol of the column, in dictionary order. -/
def qualPerBase (order : List Char) (col : List (Char × QVal)) : List (Char × ℚ) :=
  (order.filter (fun b => b != 'p')).map
    (fun b => (b, (qSum col b : ℚ) / ((col.map Prod.fst).count b : ℚ)))

/-- `qual_per_base` with the appended `"p"` entry: the mean of the other
means minus the deletion penalty 5. -/
def qpbFull (order : List Char) (col : List (Char × QVal)) : List (Char × ℚ) :=
  let qpb := qualPerBase order col
  qpb ++ [('p', ((qpb.map Prod.snd).foldl (· + ·) 0) / (qpb.length : ℚ) - 5)]

/-- Combined score `0.5 * n_score[b] + 0.5 * q_score[b]` of a symbol. -/
def colScore (order : List Char) (col : List (Char × QVal)) (b : Char) : ℚ :=
  (1 / 2) * (((col.map Prod.fst).count b : ℚ) / ((col.map Prod.fst).length : ℚ) * 10) +
    (1 / 2) * (bucket (alookup (qpbFull order col) b) : ℚ)

/-- Python `max(iterable, key=f)`: the first element attaining the maximal
key, scanning in iteration order. -/
def pickMax (score : Char → ℚ) (order : List Char) : Char :=
  match order with
  | [] => ' '
  | b :: rest => rest.foldl (fun best x => if score best < score x then x else best) b

/-- Python `int(...)`: truncation toward zero. -/
def pyTrunc (v : ℚ) : ℤ :=
  if v < 0 then -(Int.floor (-v)) else Int.floor v

/-- One column of `Consensus._consensus` (src/src/consensus.py lines
58-92): `TypeError` on an inconsistent column, skip when every symbol is `p`
(the `ZeroDivisionError` branch), skip when the winner is `p`, otherwise
emit the winner with its truncated mean quality. -/
def voteColumn (order : List Char) (col : List (Char × QVal)) : Except PyErr (Option (Char × ℤ)) :=
  if colBad col then .error .typeError
  else if (qualPerBase order col).isEmpty then .ok none
  else
    let w := pickMax (colScore order col) order
    if w = 'p' then .ok none
    else .ok (some (w, pyTrunc (alookup (qpbFull order col) w)))

/-- The column loop of `_consensus`, accumulating the consensus string and
quality list. -/
def consensusCols : List (List Char × List QVal) → Except PyErr (List Char × List ℤ)
  | [] => .ok ([], [])
  | (bs, qs) :: rest =>
    match voteColumn (setList bs) (List.zip bs qs) with
    | .error e => .error e
    | .ok none => consensusCols rest
    | .ok (some (w, q)) =>
      match consensusCols rest with
      | .error e => .error e
      | .ok (cs, ql) => .ok (w :: cs, q :: ql)

/-- Align one read against the anchor sequence and replace its `seq` by the
row-side aligned string. -/
def alignOne (anchor : List Char) (s : Seg) : Except PyErr Seg :=
  match tracebackRun s.seq anchor with
  | .error e => .error e
  | .ok (ai, _, _, _) => .ok { s with seq := ai }

/-- Align each remaining read against the anchor. -/
def alignRest (anchor : List Char) : List Seg → Except PyErr (List Seg)
  | [] => .ok []
  | s :: rest =>
    match alignOne anchor s with
    | .error e => .error e
    | .ok s2 =>
      match alignRest anchor rest with
      | .error e => .error e
      | .ok rest2 => .ok (s2 :: rest2)

/-- `Consensus._align_strings` over the cluster: the loop first aligns
`reads[0]` against itself (rewriting its `seq`), then aligns every other
read against the current `reads[0].seq`.  The source sizes the columns by
the maximum sequence length, which for the sorted cluster it is called on is
the anchor's length.  Python's `max()` on an empty cluster raises
`ValueError`. -/
def alignStrings (segs : List Seg) : Except PyErr (List Seg) :=
  match segs with
  | [] => .error .valueError
  | s0 :: rest =>
    match alignOne s0.seq s0 with
    | .error e => .error e
    | .ok s0A =>
      match alignRest s0A.seq rest with
      | .error e => .error e
      | .ok rest2 => .ok (s0A :: rest2)

/-- `[read.qual_pad() for read in self.reads]`, propagating any raise. -/
def qualPadAll : List Seg → Except PyErr (List Seg)
  | [] => .ok []
  | s :: rest =>
    match qualPadE s with
    | .error e => .error e
    | .ok s2 =>
      match qualPadAll rest with
      | .error e => .error e
      | .ok rest2 => .ok (s2 :: rest2)

/-- The constructor arguments of a `ConsensusRead` (src/src/utils.py lines
126-134).  The derived presentation strings (joined decimal qualities and
ASCII qualities) belong to the out-of-scope sink. -/
structure ConsensusRead where
  seq : List Char
  qual : List QVal
  id : String
deriving DecidableEq

/-- `Consensus._consensus` (src/src/consensus.py lines 40-98): align, pad
qualities, vote the zipped columns, and check the final length invariant. -/
def consensusOf (segs : List Seg) : Except PyErr (List Char × List ℤ) :=
  match alignStrings segs with
  | .error e => .error e
  | .ok aligned =>
    match qualPadAll aligned with
    | .error e => .error e
    | .ok padded =>
      match consensusCols (List.zip (columns (padded.map Seg.seq) ' ')
          (columns (padded.map Seg.int_qual) QVal.p)) with
      | .error e => .error e
      | .ok (cs, ql) =>
        if cs.length = ql.length then .ok (cs, ql) else .error .valueError

/-- Placeholder segment for the (unreachable) head of an empty sorted
cluster. -/
def defaultSeg : Seg :=
  ⟨[], [], "", [], false, false⟩

/-- `Consensus.compute_consensus` (src/src/consensus.py lines 18-38): a
singleton cluster is emitted unchanged without any padding or alignment;
otherwise the reads are CIGAR-padded, stably sorted by descending sequence
length, and voted. -/
def computeConsensus (segs : List Seg) : Except PyErr ConsensusRead :=
  match segs with
  | [s] => .ok ⟨s.seq, s.int_qual, s.id⟩
  | _ =>
    let sorted := sortBy (fun a b => b.seq.length < a.seq.length) (segs.map seqPad)
    match consensusOf sorted with
    | .error e => .error e
    | .ok (cs, ql) => .ok ⟨cs, ql.map QVal.q, (sorted.headD defaultSeg).id⟩

/-- `Consensus.__init__`: wrap every member of the cluster, propagating the
first raise. -/
def mkConsensus : List PyRead → Except PyErr (List Seg)
  | [] => .ok []
  | r :: rest =>
    match initSeg r with
    | .error e => .error e
    | .ok s =>
      match mkConsensus rest with
      | .error e => .error e
      | .ok rest2 => .ok (s :: rest2)

/-- The consensus loop of `main` (src/src/main.py lines 102-110): only
`EmptyClusterError` raised while *constructing* the `Consensus` object is
caught and counted; any other exception — including everything raised by
`compute_consensus` — aborts the loop. -/
def consensusLoop : List (List PyRead) → Except PyErr (List ConsensusRead × ℕ)
  | [] => .ok ([], 0)
  | cl :: rest =>
    match mkConsensus cl with
    | .error .emptyCluster =>
      match consensusLoop rest with
      | .error e => .error e
      | .ok (rs, n) => .ok (rs, n + 1)
    | .error e => .error e
    | .ok segs =>
      match computeConsensus segs with
      | .error e => .error e
      | .ok cr =>
        match consensusLoop rest with
        | .error e => .error e
        | .ok (rs, n) => .ok (cr :: rs, n)

/-- Claim C4.  A cluster of exactly one read is emitted with the read's own
sequence, quality and id: the wrapped segment carries the raw (un-padded,
un-aligned) query sequence and qualities, and `compute_consensus` on the
singleton returns them unchanged through its early-exit branch. -/
theorem C4_singleton_identity (r : PyRead) (sq : List Char) (qs : List ℤ)
    (hal : r.isAligned = true) (hsq : r.query_sequence = some sq)
    (hqs : r.query_qualities = some qs) :
    initSeg r = .ok ⟨sq, qs.map QVal.q, r.query_name, r.cigartuples, false, false⟩ ∧
    computeConsensus [⟨sq, qs.map QVal.q, r.query_name, r.cigartuples, false, false⟩] =
      .ok ⟨sq, qs.map QVal.q, r.query_name⟩ := by
  refine ⟨?_, rfl⟩
  rw [initSeg, if_neg (by simp [hal]), hqs, hsq]

/-- The single read of spec scenario 1. -/
def soloRead : PyRead :=
  ⟨"R1_AAAA", "chr1", 100, 112, true, some "ACGTACGTACGT".toList,
    some (List.replicate 12 30), [(0, 12)]⟩

/-- Witness for `C4_singleton_identity` at spec scenario 1. -/
theorem C4_singleton_identity_witness :
    (soloRead.isAligned = true ∧ soloRead.query_sequence = some "ACGTACGTACGT".toList ∧
      soloRead.query_qualities = some (List.replicate 12 30)) ∧
    initSeg soloRead = .ok ⟨"ACGTACGTACGT".toList, (List.replicate 12 30).map QVal.q,
      soloRead.query_name, soloRead.cigartuples, false, false⟩ ∧
    computeConsensus [⟨"ACGTACGTACGT".toList, (List.replicate 12 30).map QVal.q,
      soloRead.query_name, soloRead.cigartuples, false, false⟩] =
      .ok ⟨"ACGTACGTACGT".toList, (List.replicate 12 30).map QVal.q, soloRead.query_name⟩ :=
  ⟨⟨rfl, rfl, rfl⟩,
    C4_singleton_identity soloRead "ACGTACGTACGT".toList (List.replicate 12 30) rfl rfl rfl⟩

/-- A well-formed singleton-cluster read used by the pipeline claims. -/
def goodRead : PyRead :=
  ⟨"G1_ACGT", "chr3", 10, 14, true, some "ACGT".toList, some [30, 30, 30, 30], [(0, 4)]⟩

/-- A read lacking a query sequence: in pysam such a record also carries no
query qualities, so `list(read.query_qualities)` in the constructor is
`list(None)` and raises `TypeError`. -/
def badRead : PyRead :=
  ⟨"B1_ACGT", "chr3", 10, 14, true, none, none, [(0, 4)]⟩

/-- Claim C9, counterexample.  A cluster whose member lacks query qualities
(the shape a pysam read without a query sequence takes) raises `TypeError`
inside the `Consensus` constructor; `main` catches only `EmptyClusterError`,
so the loop aborts instead of skipping the cluster, and the consensus of the
previously processed good cluster is discarded rather than emitted. -/
theorem C9_missing_qualities_fatal :
    badRead.query_sequence = none ∧ badRead.query_qualities = none ∧
    consensusLoop [[goodRead]] =
      .ok ([⟨"ACGT".toList, [30, 30, 30, 30].map QVal.q, "G1_ACGT"⟩], 0) ∧
    consensusLoop [[goodRead], [badRead]] = .error PyErr.typeError :=
  ⟨rfl, rfl, by decide, by decide⟩

/-- Helper: `consensusLoop` distributes over list concatenation when both
halves succeed, concatenating outputs and adding skip counters. -/
theorem consensusLoop_append (p q : List (List PyRead)) (rs2 : List ConsensusRead) (n2 : ℕ)
    (h2 : consensusLoop q = .ok (rs2, n2)) :
    ∀ (rs1 : List ConsensusRead) (n1 : ℕ), consensusLoop p = .ok (rs1, n1) →
      consensusLoop (p ++ q) = .ok (rs1 ++ rs2, n1 + n2) := by
  induction p with
  | nil =>
    intro rs1 n1 h1
    rw [consensusLoop] at h1
    injection h1 with h
    injection h with ha hb
    subst ha
    subst hb
    simpa using h2
  | cons cl rest ih =>
    intro rs1 n1 h1
    rw [consensusLoop] at h1
    rw [List.cons_append, consensusLoop]
    split at h1
    · rename_i hmk
      split at h1
      · exact Except.noConfusion h1
      · rename_i rs n hrest
        injection h1 with h
        injection h with ha hb
        subst ha
        subst hb
        rw [ih rs n hrest]
        show (Except.ok (rs ++ rs2, n + n2 + 1) : Except PyErr (List ConsensusRead × ℕ)) =
          Except.ok (rs ++ rs2, n + 1 + n2)
        exact congrArg (fun k => (Except.ok (rs ++ rs2, k) : Except PyErr (List ConsensusRead × ℕ)))
          (by omega)
    · exact Except.noConfusion h1
    · rename_i segs hmk
      split at h1
      · exact Except.noConfusion h1
      · rename_i cr hcc
        split at h1
        · exact Except.noConfusion h1
        · rename_i rs n hrest
          injection h1 with h
          injection h with ha hb
          subst ha
          subst hb
          rw [ih rs n hrest]
          rfl

/-- Claim C9 as amended.  A cluster whose construction raises
`EmptyClusterError` (a member that is not an aligned-segment object) is
skipped, the error counter is incremented, and the surrounding clusters'
consensus output is unaffected.  (A member merely lacking query qualities
instead raises an uncaught `TypeError`; see the counterexample.) -/
theorem C9_empty_cluster_skipped (p q : List (List PyRead)) (b : List PyRead)
    (rs1 rs2 : List ConsensusRead) (n1 n2 : ℕ)
    (h1 : consensusLoop p = .ok (rs1, n1)) (h2 : consensusLoop q = .ok (rs2, n2))
    (hb : mkConsensus b = .error .emptyCluster) :
    consensusLoop (p ++ b :: q) = .ok (rs1 ++ rs2, n1 + n2 + 1) := by
  have hbq : consensusLoop (b :: q) = .ok (rs2, n2 + 1) := by
    simp only [consensusLoop, hb, h2]
  exact consensusLoop_append p (b :: q) rs2 (n2 + 1) hbq rs1 n1 h1

/-- A cluster member that is not a pysam `AlignedSegment`: the constructor
raises `EmptyClusterError`. -/
def notSegRead : PyRead :=
  ⟨"N1_ACGT", "chr3", 0, 4, false, none, none, []⟩

/-- Witness for `C9_empty_cluster_skipped`: a good cluster, then an
empty-cluster offender, then nothing. -/
theorem C9_empty_cluster_skipped_witness :
    (consensusLoop [[goodRead]] =
        .ok ([⟨"ACGT".toList, [30, 30, 30, 30].map QVal.q, "G1_ACGT"⟩], 0) ∧
      consensusLoop [] = .ok ([], 0) ∧
      mkConsensus [notSegRead] = .error .emptyCluster) ∧
    consensusLoop [[goodRead], [notSegRead]] =
      .ok ([⟨"ACGT".toList, [30, 30, 30, 30].map QVal.q, "G1_ACGT"⟩], 1) :=
  ⟨⟨by decide, rfl, by decide⟩,
    C9_empty_cluster_skipped [[goodRead]] [] [notSegRead]
      [⟨"ACGT".toList, [30, 30, 30, 30].map QVal.q, "G1_ACGT"⟩] [] 0 0
      (by decide) rfl (by decide)⟩

/-- Helper: the tied two-base column voted with set order `A, C`. -/
theorem voteColumn_AC :
    voteColumn ['A', 'C'] [('A', QVal.q 30), ('C', QVal.q 30)] = .ok (some ('A', 30)) := by
  norm_num +decide [voteColumn, colBad, qualPerBase, qSum, qvalInt, colScore, qpbFull, alookup,
    pickMax, bucket, pyTrunc]

/-- Helper: the same tied column voted with set order `C, A`. -/
theorem voteColumn_CA :
    voteColumn ['C', 'A'] [('A', QVal.q 30), ('C', QVal.q 30)] = .ok (some ('C', 30)) := by
  norm_num +decide [voteColumn, colBad, qualPerBase, qSum, qvalInt, colScore, qpbFull, alookup,
    pickMax, bucket, pyTrunc]

/-- Claim C8, counterexample.  On a column where `A` and `C` tie at combined
score 13/2, the code's winner is whatever symbol comes first in the
iteration order of `set(bases)` — `A` under one order and `C` under the
other — so ties are not broken by the claimed fixed rule (real bases over
`p`, then `A<C<G<T<N`, which would always pick `A` here). -/
theorem C8_tiebreak_not_fixed :
    voteColumn ['A', 'C'] [('A', QVal.q 30), ('C', QVal.q 30)] = .ok (some ('A', 30)) ∧
    voteColumn ['C', 'A'] [('A', QVal.q 30), ('C', QVal.q 30)] = .ok (some ('C', 30)) ∧
    ('C' : Char) ≠ 'A' :=
  ⟨voteColumn_AC, voteColumn_CA, by decide⟩

/-- The running maximum of a left fold with strict improvement stays inside
the candidate list. -/
theorem foldl_pickMax_mem (score : Char → ℚ) : ∀ (l : List Char) (b : Char),
    l.foldl (fun best x => if score best < score x then x else best) b ∈ b :: l := by
  intro l
  induction l with
  | nil => intro b; simp
  | cons y l ih =>
    intro b
    simp only [List.foldl_cons]
    rcases List.mem_cons.mp (ih (if score b < score y then y else b)) with h1 | h1
    · rw [h1]
      by_cases hby : score b < score y
      · rw [if_pos hby]; exact List.mem_cons_of_mem _ (List.mem_cons_self _ _)
      · rw [if_neg hby]; exact List.mem_cons_self _ _
    · exact List.mem_cons_of_mem _ (List.mem_cons_of_mem _ h1)

/-- Every candidate scores at most the running maximum of the fold. -/
theorem foldl_pickMax_ge (score : Char → ℚ) : ∀ (l : List Char) (b x : Char),
    x ∈ b :: l → score x ≤ score (l.foldl (fun best x => if score best < score x then x else best) b) := by
  intro l
  induction l with
  | nil =>
    intro b x hx
    rcases List.mem_cons.mp hx with h | h
    · subst h; simp
    · exact absurd h (List.not_mem_nil x)
  | cons y l ih =>
    intro b x hx
    simp only [List.foldl_cons]
    have hge_b : score b ≤ score (if score b < score y then y else b) := by
      by_cases hh : score b < score y
      · rw [if_pos hh]; exact le_of_lt hh
      · rw [if_neg hh]
    have hge_y : score y ≤ score (if score b < score y then y else b) := by
      by_cases hh : score b < score y
      · rw [if_pos hh]
      · rw [if_neg hh]; exact le_of_not_lt hh
    have hhead := ih (if score b < score y then y else b) (if score b < score y then y else b)
      (List.mem_cons_self _ _)
    rcases List.mem_cons.mp hx with h | h
    · subst h; exact le_trans hge_b hhead
    · rcases List.mem_cons.mp h with h2 | h2
      · subst h2; exact le_trans hge_y hhead
      · exact ih _ x (List.mem_cons_of_mem _ h2)

/-- `pickMax` returns a member of a non-empty candidate list. -/
theorem pickMax_mem (score : Char → ℚ) (order : List Char) (hne : order ≠ []) :
    pickMax score order ∈ order := by
  cases order with
  | nil => exact absurd rfl hne
  | cons b l => exact foldl_pickMax_mem score l b

/-- `pickMax` attains the maximal score among the candidates. -/
theorem pickMax_ge (score : Char → ℚ) (order : List Char) (x : Char) (hx : x ∈ order) :
    score x ≤ score (pickMax score order) := by
  cases order with
  | nil => exact absurd hx (List.not_mem_nil x)
  | cons b l => exact foldl_pickMax_ge score l b x hx

/-- Claim C8 as amended.  The emitted winner of a column is a symbol of the
iteration order attaining the maximal combined score `0.5 * n_score + 0.5 *
q_score`; on ties the winner is the first maximal symbol in the runtime's
set-iteration order, not the fixed real-over-`p`, `A<C<G<T<N` rule.  The
`Nodup` and membership hypotheses say that `order` enumerates `set(bases)`. -/
theorem C8_winner_attains_max (order : List Char) (col : List (Char × QVal)) (w : Char) (q : ℤ)
    (hnd : order.Nodup) (hmem : ∀ b, b ∈ order ↔ b ∈ col.map Prod.fst)
    (hw : voteColumn order col = .ok (some (w, q))) :
    w ∈ order ∧ ∀ b ∈ order, colScore order col b ≤ colScore order col w := by
  simp only [voteColumn] at hw
  by_cases h1 : colBad col = true
  · rw [if_pos h1] at hw; exact absurd hw (by simp)
  · rw [if_neg h1] at hw
    by_cases hq2 : (qualPerBase order col).isEmpty = true
    · rw [if_pos hq2] at hw; exact absurd hw (by simp)
    · rw [if_neg hq2] at hw
      by_cases h3 : pickMax (colScore order col) order = 'p'
      · rw [if_pos h3] at hw; exact absurd hw (by simp)
      · rw [if_neg h3] at hw
        injection hw with h
        injection h with h
        have hwp : pickMax (colScore order col) order = w := congrArg Prod.fst h
        have hne : order ≠ [] := by
          intro horder
          subst horder
          exact hq2 rfl
        rw [← hwp]
        exact ⟨pickMax_mem _ _ hne, fun b hb => pickMax_ge _ _ b hb⟩

/-- Witness for `C8_winner_attains_max` on the tied column with order
`A, C`. -/
theorem C8_winner_attains_max_witness :
    (List.Nodup ['A', 'C'] ∧
      (∀ b, b ∈ ['A', 'C'] ↔ b ∈ ([('A', QVal.q 30), ('C', QVal.q 30)].map Prod.fst)) ∧
      voteColumn ['A', 'C'] [('A', QVal.q 30), ('C', QVal.q 30)] = .ok (some ('A', 30))) ∧
    ('A' ∈ ['A', 'C'] ∧ ∀ b ∈ ['A', 'C'],
      colScore ['A', 'C'] [('A', QVal.q 30), ('C', QVal.q 30)] b ≤
        colScore ['A', 'C'] [('A', QVal.q 30), ('C', QVal.q 30)] 'A') :=
  ⟨⟨by decide, fun b => Iff.rfl, voteColumn_AC⟩,
    C8_winner_attains_max ['A', 'C'] [('A', QVal.q 30), ('C', QVal.q 30)] 'A' 30
      (by decide) (fun b => Iff.rfl) voteColumn_AC⟩

end UMIC
